import Mathlib

/-!
# Verification of the multi-agent research orchestration core

Shallow embedding of the iterative research orchestration loop of
`agents/research_crew.py` together with the pieces of
`agents/quality_controller.py`, `agents/lead_researcher.py` and
`agents/sub_researcher.py` that the loop interacts with.

Modelling conventions:
* Python strings are Lean `String`s; string primitives (`split`, `strip`,
  `startswith`, substring tests, joins) are given kernel-reducible
  character-list implementations below so concrete runs evaluate inside
  proofs.
* Python floats that only ever hold parsed decimal literals and their
  half-sums are modelled as exact rationals (`ℚ`).
* Python dicts with string keys (the evaluation results) are modelled as
  insertion-ordered association lists `List (String × PyVal)`; this keeps the
  producer/consumer key names observable, which matters for the behaviour of
  `conduct_research` reading a key the producer never writes.
* The external collaborators (LLM responses, sub-researcher executions) are
  universally quantified oracles: a response text per iteration for the
  quality controller, and a completion list (pairs of submitted angle and
  outcome, in completion order) per targeted round for the worker pool.
-/

/-- `listHasPre p l` : `p` is a prefix of `l` (executable, over characters). -/
def listHasPre : List Char → List Char → Bool
  | [], _ => true
  | _ :: _, [] => false
  | p :: ps, c :: cs => p == c && listHasPre ps cs

/-- `subOccurs pat l` : the character list `pat` occurs contiguously in `l`.
Models Python's `pat in line` substring test. -/
def subOccurs (pat : List Char) : List Char → Bool
  | [] => pat.isEmpty
  | c :: rest => listHasPre pat (c :: rest) || subOccurs pat rest

/-- Python `marker in line` for strings. -/
def strIn (marker line : String) : Bool := subOccurs marker.data line.data

/-- Splitting a character list at every occurrence of `c` (kernel-reducible
core of Python's `str.split(c)`). -/
def splitOnChar (c : Char) : List Char → List (List Char)
  | [] => [[]]
  | x :: rest =>
    match splitOnChar c rest with
    | h :: t => if x == c then [] :: h :: t else (x :: h) :: t
    | [] => if x == c then [[], []] else [[x]]

/-- Python `text.split('\n')`. -/
def splitLines (text : String) : List String :=
  (splitOnChar '\n' text.data).map String.mk

/-- Python `str.strip()`: drop whitespace from both ends. -/
def pyStrip (s : String) : String :=
  String.mk (((s.data.dropWhile Char.isWhitespace).reverse.dropWhile
    Char.isWhitespace).reverse)

/-- Python `'\n'.join(parts)`. -/
def joinLines (parts : List String) : String :=
  String.mk (List.intercalate ['\n'] (parts.map String.data))

/-- Digit-string to natural number (the usual decimal fold). -/
def digitsToNat (ds : List Char) : Nat :=
  ds.foldl (fun n c => 10 * n + (c.toNat - 48)) 0

/-- A character matched by the regex class `[\d.]` (digits are modelled as the
ASCII decimal digits). -/
def isNumChar (c : Char) : Bool := c.isDigit || c == '.'

/-- `re.findall(r'[\d.]+', line)[0]`: the first maximal run of digit/dot
characters of the line, if any. -/
def firstNumberRun (cs : List Char) : Option (List Char) :=
  match cs.dropWhile (fun c => !isNumChar c) with
  | [] => none
  | rest => some (rest.takeWhile isNumChar)

/-- Python `float(s)` on a string made only of digits and dots: defined iff
there is at most one dot and at least one digit; otherwise `float` raises
`ValueError`, modelled as `none`. -/
def parsePyFloat (cs : List Char) : Option ℚ :=
  if (cs.count '.') ≤ 1 && cs.any (fun c => c.isDigit) then
    let intPart := cs.takeWhile (fun c => c != '.')
    let fracPart := (cs.dropWhile (fun c => c != '.')).drop 1
    some ((digitsToNat intPart : ℚ) + (digitsToNat fracPart : ℚ) / (10 ^ fracPart.length))
  else
    none

namespace QualityController

/-- The scanning loop inside `QualityController._extract_score`
(quality_controller.py lines 236-243): walk the lines; on a line containing
the marker, take the first `[\d.]+` run; if the line has no run, keep
scanning; if `float` on the run raises, the exception escapes the loop
(`Except.error`); if no line returns, fall through to `return 0.0`. -/
def extract_score_core (marker : String) : List String → Except Unit ℚ
  | [] => .ok 0
  | line :: rest =>
    if strIn marker line then
      match firstNumberRun line.data with
      | some run =>
        match parsePyFloat run with
        | some q => .ok q
        | none => .error ()
      | none => extract_score_core marker rest
    else
      extract_score_core marker rest

/-- `QualityController._extract_score` (quality_controller.py lines 233-246):
the `try/except: pass` around the scan means any parse exception yields the
default `0.0`. Total by construction. -/
def extract_score (text marker : String) : ℚ :=
  match extract_score_core marker (splitLines text) with
  | .ok q => q
  | .error _ => 0

/-- The hard-coded next-section markers of `_extract_section`
(quality_controller.py line 262). -/
def sectionMarkers : List String :=
  ["SCORE:", "CONFIDENCE:", "GAPS:", "IMPROVEMENTS:", "EVALUATION:",
   "SUGGESTED_QUERIES:", "MISSING_INFO:", "CONTRADICTIONS:"]

/-- `line.split(':', 1)[1]` when a colon is present: everything after the
first colon. -/
def afterFirstColon (line : String) : Option String :=
  if line.data.any (fun c => c == ':') then
    some (String.mk ((line.data.dropWhile (fun c => c != ':')).drop 1))
  else
    none

/-- The capture loop of `QualityController._extract_section`
(quality_controller.py lines 250-268): once a line containing the marker is
seen, capture begins; same-line content after the first colon is captured;
a later non-blank line containing one of the known section markers stops the
capture; other non-blank lines are captured. -/
def extract_section_go (marker : String) : List String → Bool → List String → List String
  | [], _, result => result
  | line :: rest, capture, result =>
    if strIn marker line then
      match afterFirstColon line with
      | some tail =>
        if (pyStrip tail) ≠ "" then
          extract_section_go marker rest true (result ++ [(pyStrip tail)])
        else
          extract_section_go marker rest true result
      | none => extract_section_go marker rest true result
    else if capture ∧ (pyStrip line) ≠ "" ∧ sectionMarkers.any (fun m => strIn m line) then
      result
    else if capture ∧ (pyStrip line) ≠ "" then
      extract_section_go marker rest capture (result ++ [(pyStrip line)])
    else
      extract_section_go marker rest capture result

/-- `QualityController._extract_section` (quality_controller.py lines
248-270); the `try/except` is vacuous here as no step can raise; joins the
captured lines with newlines. -/
def extract_section (text marker : String) : String :=
  joinLines (extract_section_go marker (splitLines text) false [])

end QualityController

/-- A Python value stored in one of the string-keyed result dicts. -/
inductive PyVal where
  | num : ℚ → PyVal
  | str : String → PyVal
  | list : List String → PyVal
  deriving Repr, DecidableEq

/-- The result dicts are insertion-ordered association lists. -/
abbrev PyDict := List (String × PyVal)

/-- Key lookup in a dict (first binding wins, as in a Python dict where each
key is written once). -/
def dictFind (d : PyDict) (k : String) : Option PyVal :=
  (d.find? (fun p => p.1 == k)).map Prod.snd

/-- `d[k]` / `d.get(k, dflt)` for numeric values. -/
def dictNum (d : PyDict) (k : String) (dflt : ℚ) : ℚ :=
  match dictFind d k with
  | some (.num q) => q
  | _ => dflt

/-- `d.get(k, dflt)` for string values. -/
def dictStr (d : PyDict) (k : String) (dflt : String) : String :=
  match dictFind d k with
  | some (.str s) => s
  | _ => dflt

/-- `d.get(k, [])` for list values. -/
def dictList (d : PyDict) (k : String) : List String :=
  match dictFind d k with
  | some (.list l) => l
  | _ => []

namespace QualityController

/-- `QualityController.evaluate_findings` (quality_controller.py lines
136-207), restricted to the result-dict construction (lines 175-189): the
prompt construction and `invoke_llm` round-trip collapse into the free-form
`response` text, which is the function's real input. The result dict is the
literal key/value list of lines 179-189. -/
def evaluate_findings (response : String) : PyDict :=
  let completeness := extract_score response "COMPLETENESS_SCORE"
  let accuracy := extract_score response "ACCURACY_SCORE"
  let confidence := extract_score response "CONFIDENCE"
  [("completeness_score", .num completeness),
   ("accuracy_score", .num accuracy),
   ("confidence", .num confidence),
   ("missing_info", .str (extract_section response "MISSING_INFO")),
   ("contradictions", .str (extract_section response "CONTRADICTIONS")),
   ("improvements", .str (extract_section response "IMPROVEMENTS")),
   ("evaluation", .str (extract_section response "EVALUATION")),
   ("overall_quality", .num ((completeness + accuracy) / 2)),
   ("recommendation",
     .str (if (completeness + accuracy) / 2 ≥ 75 then "finalize" else "iterate"))]

end QualityController

/-- A source reference as built by `SubResearcher.conduct_research`
(sub_researcher.py lines 131-136): title, url, domain, relevance score. -/
structure Source where
  title : String
  url : String
  domain : String
  score : ℚ
  deriving Repr, DecidableEq

/-- A finding dict as the orchestration loop sees it: the keys the loop and
the pools touch (`angle`, `findings`, `error`, `sources`); a success dict has
no `error` key, modelled as `error := false`. -/
structure Finding where
  angle : String
  findings : String
  error : Bool := false
  sources : List Source := []
  deriving Repr, DecidableEq

namespace SubResearcher

/-- One step of the URL-dedup loop of `SubResearcher.conduct_research`
(sub_researcher.py lines 243-247) restricted to a single source already known
to have a nonempty url: replace the existing binding for the url only when
the new score is strictly greater (Python dict update keeps the original
insertion position), else append a fresh binding. -/
def upsert (acc : List Source) (s : Source) : List Source :=
  match acc with
  | [] => [s]
  | t :: rest =>
    if t.url = s.url then
      if s.score > t.score then s :: rest else t :: rest
    else
      t :: upsert rest s

/-- One iteration of the dedup `for` loop: a source with an empty url fails
the `if url and ...` guard and is dropped. -/
def dedupStep (acc : List Source) (s : Source) : List Source :=
  if s.url = "" then acc else upsert acc s

/-- `list(unique_sources.values())` after the dedup loop of
sub_researcher.py lines 243-247, starting from a given accumulator. -/
def dedupAux (acc : List Source) (l : List Source) : List Source :=
  l.foldl dedupStep acc

/-- URL-deduplication of a source list (sub_researcher.py lines 242-247). -/
def dedupSources (l : List Source) : List Source :=
  dedupAux [] l

end SubResearcher

namespace LeadResearcher

/-- The hardcoded fallback angles of `LeadResearcher._parse_research_angles`
(lead_researcher.py lines 160-165). -/
def defaultAngles : List String :=
  ["General background and context",
   "Current state and recent developments",
   "Key challenges and considerations",
   "Future implications and trends"]

/-- The list-item markers looked for on each line (lead_researcher.py
line 154). -/
def angleMarkers : List String := ["1.", "2.", "3.", "4.", "5.", "-", "•"]

/-- The characters stripped from the left of a marker line
(`lstrip('1234567890.-•')`, lead_researcher.py line 155). -/
def leadStripChars : List Char :=
  ['1', '2', '3', '4', '5', '6', '7', '8', '9', '0', '.', '-', '•']

/-- Per-line parsing of `_parse_research_angles` (lead_researcher.py lines
152-157): a stripped line starting with a marker yields its text with leading
numbering characters stripped, kept only when longer than 10 characters. -/
def parseAngleLine (line : String) : Option String :=
  let t := (pyStrip line)
  if angleMarkers.any (fun m => listHasPre m.data t.data) then
    let angle := pyStrip (String.mk (t.data.dropWhile (fun c => leadStripChars.contains c)))
    if angle.length > 10 then some angle else none
  else none

/-- The raw angle list collected by the line scan of
`_parse_research_angles`. -/
def rawAngles (plan : String) : List String :=
  (splitLines plan).filterMap parseAngleLine

/-- `LeadResearcher._parse_research_angles` (lead_researcher.py lines
146-165): at most 5 parsed angles, or the hardcoded default set when the
scan found none. -/
def parse_research_angles (plan : String) : List String :=
  if rawAngles plan = [] then defaultAngles else (rawAngles plan).take 5

end LeadResearcher

namespace ResearchCrew

/-- The outcome of one submitted `researcher.conduct_research` future:
either a finding dict, or a raised exception with its message. -/
inductive ExecOutcome where
  | ok : Finding → ExecOutcome
  | exn : String → ExecOutcome
  deriving Repr, DecidableEq

/-- Whether an outcome is a success. -/
def ExecOutcome.isOk : ExecOutcome → Bool
  | .ok _ => true
  | .exn _ => false

/-- Per-future processing of `ResearchCrew._conduct_parallel_research`
(research_crew.py lines 264-294): `future.result()` succeeding appends the
result dict; an exception appends an error dict
`{'angle': ..., 'findings': 'Error during research: ...', 'error': True}`. -/
def parallelFinding (p : String × ExecOutcome) : Finding :=
  match p.2 with
  | .ok f => f
  | .exn msg =>
    { angle := p.1, findings := "Error during research: " ++ msg,
      error := true, sources := [] }

/-- `ResearchCrew._conduct_parallel_research` (research_crew.py lines
246-296) as a function of the completed futures. `completed` pairs each
submitted researcher's angle with its outcome, listed in `as_completed`
(completion) order; database writes and progress callbacks are effect-only
and elided. -/
def conduct_parallel_research (completed : List (String × ExecOutcome)) : List Finding :=
  completed.map parallelFinding

/-- The `as_completed` processing loop of
`ResearchCrew._conduct_targeted_research` (research_crew.py lines 343-367):
a successful future appends its result; an exception is only logged
(lines 360-367), appending nothing. -/
def targetedPool (completed : List (String × ExecOutcome)) : List Finding :=
  completed.filterMap (fun p => match p.2 with | .ok f => some f | .exn _ => none)

/-- The targeted-angle derivation of `_conduct_targeted_research`
(research_crew.py lines 307-316): up to two angles from the missing aspects;
if that yields none and the improvement text is nonempty, one generic
fallback angle from its first 100 characters. -/
def targetedAngles (missing_aspects : List String) (improvements : String) : List String :=
  let base := (missing_aspects.take 2).map (fun aspect => "Specific investigation: " ++ aspect)
  if base.isEmpty ∧ improvements ≠ "" then
    base ++ ["Additional research based on: " ++ String.mk (improvements.data.take 100) ++ "..."]
  else
    base

/-- `ResearchCrew._conduct_targeted_research` (research_crew.py lines
298-369): derive the targeted angles; with no angles return `[]` without
running a pool (lines 318-319); otherwise run the pool on the derived angles.
`exec` is the oracle giving the round's completed futures (angle/outcome
pairs in completion order) for the submitted angles. -/
def conduct_targeted_research (missing_aspects : List String) (improvements : String)
    (exec : List String → List (String × ExecOutcome)) : List Finding :=
  let angles := targetedAngles missing_aspects improvements
  if angles.isEmpty then [] else targetedPool (exec angles)

/-- Result of the iterative research loop: the accumulated finding list, the
number of quality evaluations performed, and the value of the iteration
counter at exit. -/
structure LoopResult where
  findings : List Finding
  evaluations : Nat
  lastIteration : Nat
  deriving Repr, DecidableEq

/-- The iterative research loop of `ResearchCrew.conduct_research`
(research_crew.py lines 101-176).  `responses it` is the quality
controller's LLM response text at iteration `it`; `exec it` is the targeted
worker-pool oracle of iteration `it`.  The `while iteration <= max_iterations`
guard is represented by the structurally decreasing
`gas = max_iterations + 1 - iteration`, with the source's `iteration`
counter carried alongside (the top-level entry point establishes the
correspondence).  Body, as in the source: evaluate the findings; break when
`overall_quality >= quality_threshold`; when `iteration < max_iterations`
run targeted research on `missing_aspects` (read with `.get(..., [])`) and
`improvements`, extend the findings, increment the counter; otherwise break.
With quality control disabled the body breaks before any evaluation. -/
def loopGo (responses : Nat → String) (exec : Nat → List String → List (String × ExecOutcome))
    (enableQC : Bool) (maxIterations : Nat) (qualityThreshold : ℚ) :
    Nat → List Finding → Nat → LoopResult
  | 0, findings, iteration => ⟨findings, 0, iteration⟩
  | gas + 1, findings, iteration =>
    if enableQC then
      let ev := QualityController.evaluate_findings (responses iteration)
      if dictNum ev "overall_quality" 0 ≥ qualityThreshold then
        ⟨findings, 1, iteration⟩
      else if iteration < maxIterations then
        let missing_aspects := dictList ev "missing_aspects"
        let improvements := dictStr ev "improvements" ""
        let targeted := conduct_targeted_research missing_aspects improvements (exec iteration)
        let r := loopGo responses exec enableQC maxIterations qualityThreshold
          gas (findings ++ targeted) (iteration + 1)
        ⟨r.findings, r.evaluations + 1, r.lastIteration⟩
      else
        ⟨findings, 1, iteration⟩
    else
      ⟨findings, 0, iteration⟩

/-- Entry into the loop as in `conduct_research`: `iteration = 1`,
`max_iterations = 3`, `quality_threshold = 75` (research_crew.py lines
102-104), so the guard allows `3 + 1 - 1` body entries. -/
def conductResearchLoop (responses : Nat → String)
    (exec : Nat → List String → List (String × ExecOutcome))
    (enableQC : Bool) (findings0 : List Finding) : LoopResult :=
  loopGo responses exec enableQC 3 75 3 findings0 1

end ResearchCrew

open QualityController ResearchCrew LeadResearcher SubResearcher

/-- The evaluations counter of the loop is bounded by the remaining gas. -/
lemma loopGo_evaluations_le (responses : Nat → String)
    (exec : Nat → List String → List (String × ExecOutcome)) (enableQC : Bool)
    (maxIterations : Nat) (qualityThreshold : ℚ) :
    ∀ gas findings iteration,
      (loopGo responses exec enableQC maxIterations qualityThreshold
        gas findings iteration).evaluations ≤ gas := by
  intro gas
  induction gas with
  | zero => intro findings iteration; exact Nat.le_refl 0
  | succ g ih =>
    intro findings iteration
    simp only [loopGo]
    split
    · split
      · exact Nat.succ_le_succ (Nat.zero_le g)
      · split
        · exact Nat.succ_le_succ (ih _ _)
        · exact Nat.succ_le_succ (Nat.zero_le g)
    · exact Nat.zero_le _

/-- When the iteration counter enters within the cap, it exits within the
cap: the `iteration < max_iterations` guard is the only way it advances. -/
lemma loopGo_lastIteration_le (responses : Nat → String)
    (exec : Nat → List String → List (String × ExecOutcome)) (enableQC : Bool)
    (maxIterations : Nat) (qualityThreshold : ℚ) :
    ∀ gas findings iteration, iteration ≤ maxIterations →
      (loopGo responses exec enableQC maxIterations qualityThreshold
        gas findings iteration).lastIteration ≤ maxIterations := by
  intro gas
  induction gas with
  | zero => intro findings iteration hle; exact hle
  | succ g ih =>
    intro findings iteration hle
    simp only [loopGo]
    split
    · split
      · exact hle
      · split
        · rename_i hlt
          exact ih _ (iteration + 1) hlt
        · exact hle
    · exact hle

/-- The loop only ever appends to the accumulated finding list. -/
lemma loopGo_findings_append (responses : Nat → String)
    (exec : Nat → List String → List (String × ExecOutcome)) (enableQC : Bool)
    (maxIterations : Nat) (qualityThreshold : ℚ) :
    ∀ gas findings iteration,
      ∃ tail, (loopGo responses exec enableQC maxIterations qualityThreshold
        gas findings iteration).findings = findings ++ tail := by
  intro gas
  induction gas with
  | zero => intro findings iteration; exact ⟨[], by simp [loopGo]⟩
  | succ g ih =>
    intro findings iteration
    simp only [loopGo]
    split
    · split
      · exact ⟨[], by simp⟩
      · split
        · obtain ⟨tail, htail⟩ := ih
            (findings ++ conduct_targeted_research
              (dictList (evaluate_findings (responses iteration)) "missing_aspects")
              (dictStr (evaluate_findings (responses iteration)) "improvements" "")
              (exec iteration)) (iteration + 1)
          refine ⟨conduct_targeted_research
              (dictList (evaluate_findings (responses iteration)) "missing_aspects")
              (dictStr (evaluate_findings (responses iteration)) "improvements" "")
              (exec iteration) ++ tail, ?_⟩
          simpa [List.append_assoc] using htail
        · exact ⟨[], by simp⟩
    · exact ⟨[], by simp⟩

/-- When every marker line's first number run is unparsable, the score scan
either falls through (`ok 0`) or raises into the surrounding handler. -/
lemma extract_score_core_of_unparsable (marker : String) :
    ∀ lines : List String,
      (∀ line ∈ lines, strIn marker line = true →
        (firstNumberRun line.data).all (fun run => (parsePyFloat run).isNone) = true) →
      extract_score_core marker lines = .ok 0 ∨
        extract_score_core marker lines = .error () := by
  intro lines
  induction lines with
  | nil => intro _; exact Or.inl rfl
  | cons line rest ih =>
    intro h
    have hrest := ih (fun l hl => h l (List.mem_cons_of_mem _ hl))
    by_cases hmark : strIn marker line = true
    · cases hrun : firstNumberRun line.data with
      | none => simpa [extract_score_core, hmark, hrun] using hrest
      | some run =>
        have hall := h line (List.mem_cons_self _ _) hmark
        rw [hrun] at hall
        have : parsePyFloat run = none := by
          simpa [Option.all, Option.isNone_iff_eq_none] using hall
        simp [extract_score_core, hmark, hrun, this]
    · simpa [extract_score_core, hmark] using hrest

/-- With the marker absent from every line, the section capture never starts
and the accumulated result is returned unchanged. -/
lemma extract_section_go_of_absent (marker : String) :
    ∀ lines : List String, (∀ line ∈ lines, strIn marker line = false) →
      ∀ result, extract_section_go marker lines false result = result := by
  intro lines
  induction lines with
  | nil => intro _ result; rfl
  | cons line rest ih =>
    intro h result
    have hline := h line (List.mem_cons_self _ _)
    simp [extract_section_go, hline, ih (fun l hl => h l (List.mem_cons_of_mem _ hl))]

/-- The targeted pool keeps exactly the successful outcomes. -/
lemma targetedPool_length :
    ∀ completed : List (String × ExecOutcome),
      (targetedPool completed).length
        = (completed.filter (fun p => p.2.isOk)).length := by
  intro completed
  induction completed with
  | nil => rfl
  | cons p rest ih =>
    cases h : p.2 with
    | ok f => simp [targetedPool, List.filterMap, h, List.filter, ExecOutcome.isOk] at ih ⊢; omega
    | exn m => simp [targetedPool, List.filterMap, h, List.filter, ExecOutcome.isOk] at ih ⊢; omega

/-- C1: for every quality-controller behaviour (any sequence of LLM response
texts, including one that always evaluates to an overall score of 0) and
every targeted worker-pool behaviour, the iterative research loop of
`ResearchCrew.conduct_research` performs at most `max_iterations = 3`
quality evaluations, and the iteration counter — incremented on every
CONTINUE transition — never exits above the cap. -/
theorem C1_loop_terminates_within_max_rounds
    (responses : Nat → String)
    (exec : Nat → List String → List (String × ExecOutcome))
    (enableQC : Bool) (findings0 : List Finding) :
    (conductResearchLoop responses exec enableQC findings0).evaluations ≤ 3
    ∧ (conductResearchLoop responses exec enableQC findings0).lastIteration ≤ 3 :=
  ⟨loopGo_evaluations_le responses exec enableQC 3 75 3 findings0 1,
   loopGo_lastIteration_le responses exec enableQC 3 75 3 findings0 1 (by omega)⟩

/-- C2: an evaluation whose overall quality score is exactly the threshold 75
makes the loop break to synthesis at once (inclusive `>=` comparison): the
round returns the findings unchanged with that single evaluation. -/
theorem C2_threshold_boundary_terminates
    (responses : Nat → String)
    (exec : Nat → List String → List (String × ExecOutcome))
    (gas : Nat) (findings : List Finding) (iteration : Nat)
    (hscore : dictNum (QualityController.evaluate_findings (responses iteration))
      "overall_quality" 0 = 75) :
    loopGo responses exec true 3 75 (gas + 1) findings iteration
      = ⟨findings, 1, iteration⟩ := by
  simp [loopGo, hscore]

section ConcreteEvaluation

/- Batteries marks the rational-arithmetic primitives `@[irreducible]`;
concrete runs of the embedded code are evaluated here, so restore
reducibility locally. -/
attribute [local semireducible] Rat.add Rat.mul Rat.inv Rat.sub

/-- Witness for C2 at the response "COMPLETENESS_SCORE: 80 /
ACCURACY_SCORE: 70", whose overall score is exactly 75. -/
theorem C2_threshold_boundary_terminates_witness :
    dictNum (QualityController.evaluate_findings
        ((fun _ => "COMPLETENESS_SCORE: 80\nACCURACY_SCORE: 70") 1))
      "overall_quality" 0 = 75
    ∧ loopGo (fun _ => "COMPLETENESS_SCORE: 80\nACCURACY_SCORE: 70")
        (fun _ _ => []) true 3 75 3 [] 1 = ⟨[], 1, 1⟩ :=
  ⟨by decide,
   C2_threshold_boundary_terminates
     (fun _ => "COMPLETENESS_SCORE: 80\nACCURACY_SCORE: 70")
     (fun _ _ => []) 2 [] 1 (by decide)⟩

/-- C5: for every judgment response, the overall quality score in the dict
returned by `QualityController.evaluate_findings` is exactly the arithmetic
mean of the completeness and accuracy components of that same dict. -/
theorem C5_overall_quality_is_mean (response : String) :
    dictNum (QualityController.evaluate_findings response) "overall_quality" 0
      = (dictNum (QualityController.evaluate_findings response) "completeness_score" 0
         + dictNum (QualityController.evaluate_findings response) "accuracy_score" 0) / 2 :=
  rfl

/-- C9: from any accumulated finding list, any iteration point and any
oracle behaviour, the loop's final finding list extends the accumulated one
— findings are only ever appended, never removed or edited, so the set of
findings grows monotonically across rounds. -/
theorem C9_findings_monotone
    (responses : Nat → String)
    (exec : Nat → List String → List (String × ExecOutcome))
    (enableQC : Bool) (maxIterations : Nat) (qualityThreshold : ℚ)
    (gas : Nat) (findings : List Finding) (iteration : Nat) :
    ∃ tail, (loopGo responses exec enableQC maxIterations qualityThreshold
      gas findings iteration).findings = findings ++ tail :=
  loopGo_findings_append responses exec enableQC maxIterations qualityThreshold
    gas findings iteration

/-- C10: `evaluate_findings` always returns a dict with the key
`missing_info` and never the key `missing_aspects`; since the loop reads
`missing_aspects` with default `[]`, the aspects list is empty on every
CONTINUE round and the targeted angles come solely from the free-text
improvements, giving at most one targeted work item per round. -/
theorem C10_missing_aspects_key_never_present (response : String) (improvements : String) :
    (dictFind (QualityController.evaluate_findings response) "missing_info").isSome = true
    ∧ dictFind (QualityController.evaluate_findings response) "missing_aspects" = none
    ∧ dictList (QualityController.evaluate_findings response) "missing_aspects" = []
    ∧ (targetedAngles (dictList (QualityController.evaluate_findings response)
        "missing_aspects") improvements).length ≤ 1 := by
  refine ⟨rfl, rfl, rfl, ?_⟩
  show (targetedAngles [] improvements).length ≤ 1
  by_cases h : improvements = "" <;> simp [targetedAngles, h]

/-- C6: the quality gate's field extraction is total with defaults — when
every line containing the score marker has an unparsable (or no) leading
number run, the extracted score is 0 (the parse exception is caught), and
when the section marker is absent from the response the extracted section is
empty; no input raises. -/
theorem C6_extraction_total_with_defaults (text scoreMarker sectMarker : String)
    (hscore : ∀ line ∈ splitLines text, strIn scoreMarker line = true →
      (firstNumberRun line.data).all (fun run => (parsePyFloat run).isNone) = true)
    (hsect : ∀ line ∈ splitLines text, strIn sectMarker line = false) :
    QualityController.extract_score text scoreMarker = 0
    ∧ QualityController.extract_section text sectMarker = "" := by
  constructor
  · unfold QualityController.extract_score
    rcases extract_score_core_of_unparsable scoreMarker (splitLines text) hscore
      with h | h <;> rw [h]
  · unfold QualityController.extract_section
    rw [extract_section_go_of_absent sectMarker (splitLines text) hsect []]
    rfl

/-- Witness for C6: a response whose score-marker line carries the
unparsable number run `1.2.3` and which lacks the section marker. -/
theorem C6_extraction_total_with_defaults_witness :
    (∀ line ∈ splitLines "COMPLETENESS_SCORE: 1.2.3\nno other content",
      strIn "MISSING_INFO" line = false)
    ∧ (QualityController.extract_score "COMPLETENESS_SCORE: 1.2.3\nno other content"
        "COMPLETENESS_SCORE" = 0
       ∧ QualityController.extract_section "COMPLETENESS_SCORE: 1.2.3\nno other content"
        "MISSING_INFO" = "") :=
  ⟨by decide,
   C6_extraction_total_with_defaults "COMPLETENESS_SCORE: 1.2.3\nno other content"
     "COMPLETENESS_SCORE" "MISSING_INFO" (by decide) (by decide)⟩

/-- C8: the planner's angle parsing never yields an empty plan — zero parsed
angles fall back to the hardcoded default set — and is truncated to at most
5 angles by the parser and to the configured number of sub-researchers
before dispatch (the `take n` of research_crew.py line 84). -/
theorem C8_planner_fallback_and_truncation (plan : String) (n : Nat) :
    1 ≤ (LeadResearcher.parse_research_angles plan).length
    ∧ (LeadResearcher.parse_research_angles plan).length ≤ 5
    ∧ ((LeadResearcher.parse_research_angles plan).take n).length ≤ n
    ∧ LeadResearcher.parse_research_angles plan
        = (if rawAngles plan = [] then LeadResearcher.defaultAngles
           else (rawAngles plan).take 5) := by
  refine ⟨?_, ?_, ?_, rfl⟩
  · unfold LeadResearcher.parse_research_angles
    split
    · simp [LeadResearcher.defaultAngles]
    · rename_i h
      have hlen : 0 < (rawAngles plan).length := List.length_pos.mpr h
      simp only [List.length_take]
      omega
  · unfold LeadResearcher.parse_research_angles
    split
    · simp [LeadResearcher.defaultAngles]
    · simp only [List.length_take]
      omega
  · simp only [List.length_take]
    omega

/-- C3 (amended): the initial parallel round returns exactly one Finding per
submitted work item, converting an execution exception into an error-flagged
Finding; but a targeted round returns one Finding per successful item only —
its exception handler logs and appends nothing, so failed targeted items are
dropped from the returned list. -/
theorem C3_amended_pool_completeness (completed : List (String × ExecOutcome))
    (angle msg : String) :
    (conduct_parallel_research completed).length = completed.length
    ∧ (parallelFinding (angle, ExecOutcome.exn msg)).error = true
    ∧ (targetedPool completed).length
        = (completed.filter (fun p => p.2.isOk)).length :=
  ⟨by simp [conduct_parallel_research], rfl, targetedPool_length completed⟩

/-- Counterexample to C3 as stated: a targeted round with one submitted work
item whose execution raises returns an empty Finding list — the returned
length 0 differs from the submitted length 1, and the failure is silently
dropped instead of yielding an error Finding. -/
theorem C3_counterexample_targeted_drops_failure :
    conduct_targeted_research ["competitor analysis"] ""
        (fun angles => angles.map (fun a => (a, ExecOutcome.exn "search timeout"))) = []
    ∧ (targetedAngles ["competitor analysis"] "").length = 1 :=
  ⟨rfl, rfl⟩

/-- Counterexample to C4 as stated: on the degenerate evaluation (empty
response text: scores 0, no missing aspects, empty improvements), the
targeted derivation yields zero items, yet the loop does not terminate at
that round — it keeps iterating and performs all 3 quality evaluations. -/
theorem C4_counterexample_loop_continues_on_empty_derivation :
    targetedAngles (dictList (QualityController.evaluate_findings "") "missing_aspects")
        (dictStr (QualityController.evaluate_findings "") "improvements" "") = []
    ∧ (conductResearchLoop (fun _ => "") (fun _ _ => []) true []).evaluations = 3 := by
  exact ⟨rfl, by decide⟩

/-- C4 (amended): when the quality score is below threshold, the iteration
counter is below the cap and the targeted derivation yields zero items, the
round contributes no findings and spawns no researchers, but the loop does
not terminate: it increments the counter, performs one more evaluation than
the remainder of the run, and only stops via the threshold or the cap. -/
theorem C4_amended_empty_derivation_continues
    (responses : Nat → String)
    (exec : Nat → List String → List (String × ExecOutcome))
    (gas : Nat) (findings : List Finding) (iteration : Nat)
    (hq : dictNum (QualityController.evaluate_findings (responses iteration))
      "overall_quality" 0 < 75)
    (hit : iteration < 3)
    (hz : targetedAngles
        (dictList (QualityController.evaluate_findings (responses iteration)) "missing_aspects")
        (dictStr (QualityController.evaluate_findings (responses iteration)) "improvements" "")
      = []) :
    loopGo responses exec true 3 75 (gas + 1) findings iteration
      = { findings := (loopGo responses exec true 3 75 gas findings (iteration + 1)).findings,
          evaluations :=
            (loopGo responses exec true 3 75 gas findings (iteration + 1)).evaluations + 1,
          lastIteration :=
            (loopGo responses exec true 3 75 gas findings (iteration + 1)).lastIteration } := by
  have hq' : ¬ dictNum (QualityController.evaluate_findings (responses iteration))
      "overall_quality" 0 ≥ 75 := not_le.mpr hq
  simp [loopGo, hq', hit, conduct_targeted_research, hz]

/-- Witness for the amended C4 at the all-zero evaluation: at iteration 1 of
3 the loop recurses to iteration 2 with unchanged findings and one more
evaluation. -/
theorem C4_amended_empty_derivation_continues_witness :
    dictNum (QualityController.evaluate_findings ((fun _ => "") 1)) "overall_quality" 0 < 75
    ∧ loopGo (fun _ => "") (fun _ _ => []) true 3 75 3 [] 1
      = { findings := (loopGo (fun _ => "") (fun _ _ => []) true 3 75 2 [] 2).findings,
          evaluations := (loopGo (fun _ => "") (fun _ _ => []) true 3 75 2 [] 2).evaluations + 1,
          lastIteration := (loopGo (fun _ => "") (fun _ _ => []) true 3 75 2 [] 2).lastIteration } :=
  ⟨by decide,
   C4_amended_empty_derivation_continues (fun _ => "") (fun _ _ => []) 2 [] 1
     (by decide) (by decide) rfl⟩

open SubResearcher in
/-- Each element of an upsert is an old element or the new source. -/
lemma mem_upsert (s : Source) :
    ∀ acc : List Source, ∀ x ∈ upsert acc s, x ∈ acc ∨ x = s := by
  intro acc
  induction acc with
  | nil => intro x hx; simp [upsert] at hx; exact Or.inr hx
  | cons t rest ih =>
    intro x hx
    by_cases hurl : t.url = s.url
    · by_cases hscore : s.score > t.score
      · simp [upsert, hurl, hscore] at hx
        rcases hx with hx | hx
        · exact Or.inr hx
        · exact Or.inl (List.mem_cons_of_mem _ hx)
      · simp [upsert, hurl, hscore] at hx
        rcases hx with hx | hx
        · exact Or.inl (by simp [hx])
        · exact Or.inl (List.mem_cons_of_mem _ hx)
    · simp [upsert, hurl] at hx
      rcases hx with hx | hx
      · exact Or.inl (by simp [hx])
      · rcases ih x hx with h | h
        · exact Or.inl (List.mem_cons_of_mem _ h)
        · exact Or.inr h

open SubResearcher in
/-- Upserting a url not yet present appends the source. -/
lemma upsert_eq_append (s : Source) :
    ∀ acc : List Source, s.url ∉ acc.map Source.url → upsert acc s = acc ++ [s] := by
  intro acc
  induction acc with
  | nil => intro _; rfl
  | cons t rest ih =>
    intro h
    simp only [List.map_cons, List.mem_cons] at h
    push_neg at h
    have hurl : t.url ≠ s.url := fun hc => h.1 hc.symm
    simp [upsert, hurl, ih h.2]

open SubResearcher in
/-- Upserting a url already present leaves the url list unchanged. -/
lemma map_url_upsert_of_mem (s : Source) :
    ∀ acc : List Source, s.url ∈ acc.map Source.url →
      (upsert acc s).map Source.url = acc.map Source.url := by
  intro acc
  induction acc with
  | nil => intro h; simp at h
  | cons t rest ih =>
    intro h
    by_cases hurl : t.url = s.url
    · by_cases hscore : s.score > t.score
      · simp [upsert, hurl, hscore]
      · simp [upsert, hurl, hscore]
    · simp only [List.map_cons, List.mem_cons] at h
      rcases h with h | h
      · exact absurd h.symm hurl
      · simp [upsert, hurl, ih h]

open SubResearcher in
/-- Upserting introduces an element at the new source's url whose score
dominates it. -/
lemma upsert_exists_ge (s : Source) :
    ∀ acc : List Source, ∃ r ∈ upsert acc s, r.url = s.url ∧ s.score ≤ r.score := by
  intro acc
  induction acc with
  | nil => exact ⟨s, by simp [upsert]⟩
  | cons t rest ih =>
    by_cases hurl : t.url = s.url
    · by_cases hscore : s.score > t.score
      · exact ⟨s, by simp [upsert, hurl, hscore]⟩
      · exact ⟨t, by simp [upsert, hurl, hscore], hurl, le_of_not_lt hscore⟩
    · obtain ⟨r, hr, hru, hrs⟩ := ih
      exact ⟨r, by simp [upsert, hurl, List.mem_cons_of_mem _ hr], hru, hrs⟩

open SubResearcher in
/-- Upserting preserves score domination: an accumulator element dominating
`c` at url `u` keeps a dominating element at `u`. -/
lemma upsert_preserves_ge (s : Source) (u : String) (c : ℚ) :
    ∀ acc : List Source, (∃ r ∈ acc, r.url = u ∧ c ≤ r.score) →
      ∃ r ∈ upsert acc s, r.url = u ∧ c ≤ r.score := by
  intro acc
  induction acc with
  | nil => intro h; simp at h
  | cons t rest ih =>
    intro h
    obtain ⟨r, hr, hru, hrs⟩ := h
    rcases List.mem_cons.mp hr with hrt | hrrest
    · subst hrt
      by_cases hurl : r.url = s.url
      · by_cases hscore : s.score > r.score
        · exact ⟨s, by simp [upsert, hurl, hscore], hurl ▸ hru, le_of_lt
            (lt_of_le_of_lt hrs hscore)⟩
        · exact ⟨r, by simp [upsert, hurl, hscore], hru, hrs⟩
      · exact ⟨r, by simp [upsert, hurl], hru, hrs⟩
    · by_cases hurl : t.url = s.url
      · by_cases hscore : s.score > t.score
        · exact ⟨r, by simp [upsert, hurl, hscore, List.mem_cons_of_mem _ hrrest], hru, hrs⟩
        · exact ⟨r, by simp [upsert, hurl, hscore, List.mem_cons_of_mem _ hrrest], hru, hrs⟩
      · obtain ⟨r2, hr2, hr2u, hr2s⟩ := ih ⟨r, hrrest, hru, hrs⟩
        exact ⟨r2, by simp [upsert, hurl, List.mem_cons_of_mem _ hr2], hr2u, hr2s⟩

open SubResearcher in
/-- The whole dedup loop preserves score domination. -/
lemma dedupAux_preserves_ge (u : String) (c : ℚ) :
    ∀ l acc : List Source, (∃ r ∈ acc, r.url = u ∧ c ≤ r.score) →
      ∃ r ∈ dedupAux acc l, r.url = u ∧ c ≤ r.score := by
  intro l
  induction l with
  | nil => intro acc h; exact h
  | cons s rest ih =>
    intro acc h
    show ∃ r ∈ dedupAux (dedupStep acc s) rest, r.url = u ∧ c ≤ r.score
    by_cases hs : s.url = ""
    · exact ih _ (by simpa [dedupStep, hs] using h)
    · exact ih _ (by simpa [dedupStep, hs] using upsert_preserves_ge s u c acc h)

open SubResearcher in
/-- Every processed source with a nonempty url is dominated by some element
of the dedup result sharing its url. -/
lemma dedupAux_exists_ge :
    ∀ l acc : List Source, ∀ t ∈ l, t.url ≠ "" →
      ∃ r ∈ dedupAux acc l, r.url = t.url ∧ t.score ≤ r.score := by
  intro l
  induction l with
  | nil => intro acc t ht; simp at ht
  | cons s rest ih =>
    intro acc t ht htu
    rcases List.mem_cons.mp ht with hts | htrest
    · subst hts
      have hstep : dedupStep acc t = upsert acc t := by simp [dedupStep, htu]
      have hx := upsert_exists_ge t acc
      show ∃ r ∈ dedupAux (dedupStep acc t) rest, r.url = t.url ∧ t.score ≤ r.score
      rw [hstep]
      exact dedupAux_preserves_ge t.url t.score rest (upsert acc t) hx
    · exact ih (dedupStep acc s) t htrest htu

open SubResearcher in
/-- Every element of the dedup result is one of the processed sources or was
already in the accumulator. -/
lemma mem_dedupAux :
    ∀ l acc : List Source, ∀ x ∈ dedupAux acc l, x ∈ acc ∨ x ∈ l := by
  intro l
  induction l with
  | nil => intro acc x hx; exact Or.inl hx
  | cons s rest ih =>
    intro acc x hx
    have hx2 : x ∈ dedupAux (dedupStep acc s) rest := hx
    rcases ih (dedupStep acc s) x hx2 with h | h
    · by_cases hs : s.url = ""
      · simp [dedupStep, hs] at h
        exact Or.inl h
      · simp [dedupStep, hs] at h
        rcases mem_upsert s acc x h with h2 | h2
        · exact Or.inl h2
        · exact Or.inr (by simp [h2])
    · exact Or.inr (List.mem_cons_of_mem _ h)

open SubResearcher in
/-- Dedup never emits an element with an empty url (given a clean
accumulator). -/
lemma dedupAux_url_ne :
    ∀ l acc : List Source, (∀ r ∈ acc, r.url ≠ "") →
      ∀ r ∈ dedupAux acc l, r.url ≠ "" := by
  intro l
  induction l with
  | nil => intro acc hacc r hr; exact hacc r hr
  | cons s rest ih =>
    intro acc hacc r hr
    have hr2 : r ∈ dedupAux (dedupStep acc s) rest := hr
    refine ih (dedupStep acc s) ?_ r hr2
    intro x hx
    by_cases hs : s.url = ""
    · simp [dedupStep, hs] at hx
      exact hacc x hx
    · simp [dedupStep, hs] at hx
      rcases mem_upsert s acc x hx with h | h
      · exact hacc x h
      · rw [h]; exact hs

open SubResearcher in
/-- Dedup keeps the url list duplicate-free. -/
lemma dedupAux_nodup :
    ∀ l acc : List Source, (acc.map Source.url).Nodup →
      ((dedupAux acc l).map Source.url).Nodup := by
  intro l
  induction l with
  | nil => intro acc hacc; exact hacc
  | cons s rest ih =>
    intro acc hacc
    refine ih (dedupStep acc s) ?_
    by_cases hs : s.url = ""
    · simpa [dedupStep, hs] using hacc
    · by_cases hmem : s.url ∈ acc.map Source.url
      · simpa [dedupStep, hs, map_url_upsert_of_mem s acc hmem] using hacc
      · rw [show dedupStep acc s = acc ++ [s] by
          simp [dedupStep, hs, upsert_eq_append s acc hmem]]
        simp [List.nodup_append, hacc]
        intro x hx hxu
        exact hmem (hxu ▸ List.mem_map_of_mem Source.url hx)

open SubResearcher in
/-- Dedup is the identity on a list that is already deduplicated: pairwise
distinct nonempty urls pass through unchanged. -/
lemma dedupAux_clean_id :
    ∀ l acc : List Source, (∀ r ∈ l, r.url ≠ "") →
      ((acc ++ l).map Source.url).Nodup → dedupAux acc l = acc ++ l := by
  intro l
  induction l with
  | nil => intro acc _ _; simp [dedupAux]
  | cons s rest ih =>
    intro acc hcl hnd
    have hs : s.url ≠ "" := hcl s (List.mem_cons_self _ _)
    have hmem : s.url ∉ acc.map Source.url := by
      simp only [List.map_append, List.nodup_append] at hnd
      intro hx
      exact hnd.2.2 hx (by simp)
    have hstep : dedupStep acc s = acc ++ [s] := by
      simp [dedupStep, hs, upsert_eq_append s acc hmem]
    show dedupAux (dedupStep acc s) rest = acc ++ s :: rest
    rw [hstep, ih (acc ++ [s]) (fun r hr => hcl r (List.mem_cons_of_mem _ hr))
      (by simpa using hnd), List.append_assoc]
    rfl

open SubResearcher in
/-- In a list with duplicate-free urls, elements are determined by their
url. -/
lemma eq_of_mem_of_url_eq :
    ∀ l : List Source, (l.map Source.url).Nodup →
      ∀ x ∈ l, ∀ y ∈ l, x.url = y.url → x = y := by
  intro l
  induction l with
  | nil => intro _ x hx; simp at hx
  | cons a rest ih =>
    intro hnd x hx y hy hxy
    simp only [List.map_cons, List.nodup_cons] at hnd
    rcases List.mem_cons.mp hx with hxa | hxr
    · rcases List.mem_cons.mp hy with hya | hyr
      · rw [hxa, hya]
      · subst hxa
        exact absurd (hxy ▸ List.mem_map_of_mem Source.url hyr) hnd.1
    · rcases List.mem_cons.mp hy with hya | hyr
      · subst hya
        exact absurd (hxy ▸ List.mem_map_of_mem Source.url hxr) hnd.1
      · exact ih hnd.2 x hxr y hyr hxy

/-- C7: URL-deduplication of a source list is idempotent, and every retained
source is one of the input copies carrying the maximum relevance score among
the input copies that share its url. -/
theorem C7_dedup_idempotent_and_keeps_max (l : List Source) :
    dedupSources (dedupSources l) = dedupSources l
    ∧ ∀ s ∈ dedupSources l, s ∈ l ∧ ∀ t ∈ l, t.url = s.url → t.score ≤ s.score := by
  have hne : ∀ r ∈ dedupSources l, r.url ≠ "" :=
    dedupAux_url_ne l [] (by intro r hr; simp at hr)
  have hnd : ((dedupSources l).map Source.url).Nodup :=
    dedupAux_nodup l [] (by simp)
  constructor
  · have := dedupAux_clean_id (dedupSources l) [] hne (by simpa using hnd)
    simpa [dedupSources] using this
  · intro s hs
    refine ⟨?_, ?_⟩
    · rcases mem_dedupAux l [] s hs with h | h
      · simp at h
      · exact h
    · intro t ht htu
      have htne : t.url ≠ "" := htu ▸ hne s hs
      obtain ⟨r, hr, hru, hrs⟩ := dedupAux_exists_ge l [] t ht htne
      have : r = s := eq_of_mem_of_url_eq (dedupSources l) hnd r hr s hs (hru.trans htu)
      exact this ▸ hrs

/-- Witness for C7 on a concrete source list with a duplicated url, an
empty-url source and distinct scores. -/
theorem C7_dedup_idempotent_and_keeps_max_witness :
    (dedupSources (dedupSources
        [⟨"t1", "u1", "d", 1⟩, ⟨"t2", "u1", "d", 3⟩, ⟨"t3", "", "d", 9⟩,
         ⟨"t4", "u2", "d", 2⟩])
      = dedupSources
        [⟨"t1", "u1", "d", 1⟩, ⟨"t2", "u1", "d", 3⟩, ⟨"t3", "", "d", 9⟩,
         ⟨"t4", "u2", "d", 2⟩])
    ∧ ∀ s ∈ dedupSources
        [⟨"t1", "u1", "d", 1⟩, ⟨"t2", "u1", "d", 3⟩, ⟨"t3", "", "d", 9⟩,
         ⟨"t4", "u2", "d", 2⟩],
        s ∈ [⟨"t1", "u1", "d", 1⟩, ⟨"t2", "u1", "d", 3⟩, ⟨"t3", "", "d", 9⟩,
         (⟨"t4", "u2", "d", 2⟩ : Source)]
        ∧ ∀ t ∈ [⟨"t1", "u1", "d", 1⟩, ⟨"t2", "u1", "d", 3⟩, ⟨"t3", "", "d", 9⟩,
         (⟨"t4", "u2", "d", 2⟩ : Source)], t.url = s.url → t.score ≤ s.score :=
  C7_dedup_idempotent_and_keeps_max
    [⟨"t1", "u1", "d", 1⟩, ⟨"t2", "u1", "d", 3⟩, ⟨"t3", "", "d", 9⟩,
     ⟨"t4", "u2", "d", 2⟩]

end ConcreteEvaluation
